import Mathlib

/-!
Verification of the Google-Calendar synchronization core of
`obsidian-full-calendar-gcal-sync`, shallowly embedded from
`src/sync/GoogleCalendarSync.ts` and `src/sync/SyncScheduler.ts`.

Remote HTTP calls are modelled by explicit effect counters/logs in a shared
state, and the single-threaded cooperative concurrency of the JavaScript event
loop is modelled as a small-step interleaving machine whose steps are exactly
the synchronous blocks between `await` points of the source.
-/

namespace GCalSync

/-! ## Calendar dates (luxon `DateTime` fragment used by the code)

`convertToGoogleEvent` uses luxon only through `fromISO` (a plain calendar
date), `toFormat("yyyy-MM-dd")`, `plus({days: 1})`, `set({hour, minute})` and
`toISO()`.  A calendar date is a year/month/day triple; a serialized timed
instant is modelled as minutes on a linear local timeline (luxon's `set`
normalizes out-of-range fields through `Date.UTC`, which is linear in its
arguments, so `set({hour: 24})` rolls over to the next day).  The zone is
modelled as a fixed offset, per the spec's "local naive wall-clock sense". -/

structure DateYMD where
  y : Nat
  m : Nat
  d : Nat
deriving DecidableEq, Repr

def isLeapYear (y : Nat) : Bool :=
  y % 4 == 0 && (y % 100 != 0 || y % 400 == 0)

def daysInMonth (y m : Nat) : Nat :=
  if m = 2 then (if isLeapYear y then 29 else 28)
  else if m = 4 ∨ m = 6 ∨ m = 9 ∨ m = 11 then 30
  else 31

/-- luxon `plus({days: 1})` on a calendar date. -/
def nextDay (dt : DateYMD) : DateYMD :=
  if dt.d < daysInMonth dt.y dt.m then ⟨dt.y, dt.m, dt.d + 1⟩
  else if dt.m < 12 then ⟨dt.y, dt.m + 1, 1⟩
  else ⟨dt.y + 1, 1, 1⟩

/-- Days since the Unix epoch of a civil date (standard days-from-civil
computation, as performed by `Date.UTC`). -/
def dayNumber (dt : DateYMD) : Int :=
  let y : Int := if dt.m ≤ 2 then (dt.y : Int) - 1 else (dt.y : Int)
  let era : Int := (if 0 ≤ y then y else y - 399) / 400
  let yoe : Int := y - era * 400
  let mp : Int := ((dt.m : Int) + 9) % 12
  let doy : Int := (153 * mp + 2) / 5 + (dt.d : Int) - 1
  let doe : Int := yoe * 365 + yoe / 4 - yoe / 100 + doy
  era * 146097 + doe - 719468

/-- The instant (in minutes, fixed local offset) denoted by the ISO string that
luxon produces for `date.set({hour, minute}).toISO()`.  `Date.UTC` is linear in
the hour/minute fields, which is what makes `set({hour: 24})` valid. -/
def localInstant (dt : DateYMD) (hour minute : Nat) : Int :=
  dayNumber dt * 1440 + (hour : Int) * 60 + (minute : Int)

/-! ## Event payloads (`convertToGoogleEvent`) -/

/-- A Google event boundary: `{date: "yyyy-MM-dd"}` or `{dateTime: <ISO>}`. -/
inductive GTime where
  | date (d : DateYMD)
  | dateTime (minutes : Int)
deriving DecidableEq, Repr

/-- The payload assembled by `convertToGoogleEvent` (`summary`, optional
`start`, optional `end`; the remote record id is never set). -/
structure GoogleEvent where
  summary : String
  start : Option GTime := none
  end_ : Option GTime := none
deriving DecidableEq, Repr

inductive EventType where
  | single
  | rrule
deriving DecidableEq, Repr

/-- The fragment of `OFCEvent` read by the sync core.  `startTime`/`endTime`
are the already-split `"HH:MM"` components. -/
structure OFCEvent where
  title : String
  type : EventType
  allDay : Bool
  date : DateYMD
  endDate : Option DateYMD := none
  startTime : Option (Nat × Nat) := none
  endTime : Option (Nat × Nat) := none
  id : Option String := none
deriving DecidableEq, Repr

/-- `GoogleCalendarSync.convertToGoogleEvent` (GoogleCalendarSync.ts:172-235). -/
def convertToGoogleEvent (event : OFCEvent) : GoogleEvent :=
  let base : GoogleEvent := { summary := event.title }
  match event.type with
  | .rrule => base
  | .single =>
    if event.allDay then
      match event.endDate with
      | some e => { base with start := some (.date event.date), end_ := some (.date e) }
      | none =>
        { base with
            start := some (.date event.date)
            end_ := some (.date (nextDay event.date)) }
    else
      match event.startTime, event.endTime with
      | some (sh, sm), some (eh, em) =>
        { base with
            start := some (.dateTime (localInstant event.date sh sm))
            end_ := some (.dateTime (localInstant event.date eh em)) }
      | some (sh, sm), none =>
        { base with
            start := some (.dateTime (localInstant event.date sh sm))
            end_ := some (.dateTime (localInstant event.date (sh + 1) sm)) }
      | none, _ => base

/-! ## The mapping table

`syncState.eventMapping` is a JavaScript object (string keys, unique) mapped
here to an association list.  Remote record ids are modelled as `Nat`. -/

/-- Property read `mapping[k]`. -/
def lookupM (m : List (String × Nat)) (k : String) : Option Nat :=
  (m.find? (fun e => e.1 = k)).map (·.2)

/-- Property write `mapping[k] = v` (replace if present, else add). -/
def insertM (m : List (String × Nat)) (k : String) (v : Nat) : List (String × Nat) :=
  if (m.find? (fun e => e.1 = k)).isSome then
    m.map (fun e => if e.1 = k then (k, v) else e)
  else m ++ [(k, v)]

/-- Property delete `delete mapping[k]`. -/
def removeM (m : List (String × Nat)) (k : String) : List (String × Nat) :=
  m.filter (fun e => ¬(e.1 = k))

/-! ## Orphan deletion (`deleteOrphanedEvents`, GoogleCalendarSync.ts:908-990)

The outcome of each remote `events.delete` call is supplied by an environment
`env : Nat → DelOutcome` (keyed by the remote record id).  The code issues the
deletions in batches of 5 with inter-batch delays; each batch item only reads
its own outcome and removes its own (unique) mapping key, so the final state is
independent of the interleaving and the batch loop is embedded as a sequential
pass over the orphan list. -/

inductive DelOutcome where
  | ok
  | httpErr (code : Nat)
deriving DecidableEq, Repr

/-- Outcomes after which `deleteOrphanedEvents` removes the mapping entry and
counts the deletion: a fulfilled delete, or a rejection whose `code` (or
`response.status`) is `410` (GoogleCalendarSync.ts:960-973). -/
def isGone (o : DelOutcome) : Bool :=
  match o with
  | .ok => true
  | .httpErr c => c == 410

/-- The entries of the mapping whose key is not among the current local event
keys (GoogleCalendarSync.ts:916-922). -/
def orphansOf (m : List (String × Nat)) (keys : List String) : List (String × Nat) :=
  m.filter (fun e => ¬ keys.contains e.1)

/-- One pass of the deletion loop of `deleteOrphanedEvents` over the listed
orphans: returns the updated mapping, the `deletedCount`, and the list of
remote ids for which a delete call was issued (one call per orphan). -/
def processOrphans (env : Nat → DelOutcome) (m : List (String × Nat)) :
    List (String × Nat) → List (String × Nat) × Nat × List Nat
  | [] => (m, 0, [])
  | (k, g) :: rest =>
    if isGone (env g) then
      let r := processOrphans env (removeM m k) rest
      (r.1, r.2.1 + 1, g :: r.2.2)
    else
      let r := processOrphans env m rest
      (r.1, r.2.1, g :: r.2.2)

/-- `GoogleCalendarSync.deleteOrphanedEvents` (GoogleCalendarSync.ts:908-990):
final mapping, `deletedCount`, and the remote ids of the issued delete calls. -/
def deleteOrphanedEvents (env : Nat → DelOutcome) (m : List (String × Nat))
    (obsidianEventKeys : List String) : List (String × Nat) × Nat × List Nat :=
  processOrphans env m (orphansOf m obsidianEventKeys)

/-! ## Single-key deletion (`deleteEvent`, GoogleCalendarSync.ts:695-779) -/

/-- JavaScript truthiness of an optional string (`""` is falsy). -/
def truthy : Option String → Option String
  | some s => if s = "" then none else some s
  | none => none

/-- The fuzzy key match used by `deleteEvent` when the exact lookup fails
(GoogleCalendarSync.ts:703-709). -/
def fuzzyMatch (key obsidianEventId : String) : Bool :=
  key == obsidianEventId ||
  key.toLower == obsidianEventId.toLower ||
  key.endsWith obsidianEventId ||
  obsidianEventId.endsWith key

/-- Persisted sync state touched by `deleteEvent`. -/
structure SyncStateM where
  eventMapping : List (String × Nat)
  pendingDeletions : List String
deriving DecidableEq, Repr

/-- Result of a `deleteEvent` call: normal return or a thrown error. -/
inductive DelResult where
  | ok
  | thrown (msg : String)
deriving DecidableEq, Repr

/-- `GoogleCalendarSync.addPendingDeletion` (GoogleCalendarSync.ts:895-902). -/
def addPendingDeletion (st : SyncStateM) (eventKey : String) : SyncStateM :=
  if st.pendingDeletions.contains eventKey then st
  else { st with pendingDeletions := st.pendingDeletions ++ [eventKey] }

/-- `GoogleCalendarSync.deleteEvent` (GoogleCalendarSync.ts:695-779).  `auth`
is `isAuthenticated()`; `env` supplies the outcome of each remote
`events.delete` call. -/
def deleteEvent (env : Nat → DelOutcome) (auth : Bool) (st : SyncStateM)
    (obsidianEventId : String) : SyncStateM × DelResult :=
  if ¬ auth then (st, .thrown "Not authenticated with Google Calendar")
  else
    match lookupM st.eventMapping obsidianEventId with
    | none =>
      match (st.eventMapping.map (·.1)).find? (fun key => fuzzyMatch key obsidianEventId) with
      | some matchingKey =>
        -- GoogleCalendarSync.ts:711-720: the delete call in this branch is not
        -- wrapped in a try/catch, so any rejection propagates unchanged.
        match lookupM st.eventMapping matchingKey with
        | some matchedGoogleId =>
          match env matchedGoogleId with
          | .ok => ({ st with eventMapping := removeM st.eventMapping matchingKey }, .ok)
          | .httpErr c => (st, .thrown (toString c))
        | none => (st, .ok)
      | none =>
        if st.pendingDeletions.contains obsidianEventId then (st, .ok)
        else
          (addPendingDeletion st obsidianEventId,
           .thrown ("No Google Calendar event found for: " ++ obsidianEventId))
    | some googleEventId =>
      match env googleEventId with
      | .ok =>
        ({ eventMapping := removeM st.eventMapping obsidianEventId
           pendingDeletions := st.pendingDeletions.filter (fun k => ¬(k = obsidianEventId)) }, .ok)
      | .httpErr 404 =>
        ({ eventMapping := removeM st.eventMapping obsidianEventId
           pendingDeletions := st.pendingDeletions.filter (fun k => ¬(k = obsidianEventId)) }, .ok)
      | .httpErr 401 =>
        (st, .thrown "Google Calendar authentication expired. Please re-authenticate.")
      | .httpErr c =>
        (addPendingDeletion st obsidianEventId, .thrown (toString c))

/-! ## Periodic sync driver (`SyncScheduler`, SyncScheduler.ts)

One registered, sync-ready calendar source is modelled.  `inFlight` counts the
`syncAll` runs currently in flight for that source; each run invokes the
source's `syncAllEvents`, so two in-flight runs are two concurrent
reconciliation runs for the source.  Timer ticks can occur at any moment while
the interval timer is set (in particular while a previous run is still in
flight, since runs are not awaited by the timer). -/

structure SchedState where
  isRunning : Bool
  timerSet : Bool
  inFlight : Nat
deriving DecidableEq, Repr

inductive SchedEvent where
  /-- `start()` (SyncScheduler.ts:51-72): no-op when already running, else sets
  the flag, fires an immediate un-awaited `syncAll()` and sets the timer. -/
  | start
  /-- `stop()` (SyncScheduler.ts:77-84): clears the timer and the flag. -/
  | stop
  /-- the interval timer fires and calls `syncAll()` (SyncScheduler.ts:66-71). -/
  | tick
  /-- a manual `syncAll()` call (public method, SyncScheduler.ts:89). -/
  | manualSync
  /-- an in-flight `syncAll` run finishes. -/
  | runComplete
deriving DecidableEq, Repr

def schedStep (s : SchedState) : SchedEvent → SchedState
  | .start =>
    if s.isRunning then s
    else { isRunning := true, timerSet := true, inFlight := s.inFlight + 1 }
  | .stop => { s with isRunning := false, timerSet := false }
  | .tick => if s.timerSet then { s with inFlight := s.inFlight + 1 } else s
  | .manualSync => { s with inFlight := s.inFlight + 1 }
  | .runComplete => { s with inFlight := s.inFlight - 1 }

def schedInit : SchedState := ⟨false, false, 0⟩

def schedRun (tr : List SchedEvent) : SchedState :=
  tr.foldl schedStep schedInit

/-- The property claimed of the driver: at no reachable point are two
reconciliation runs for the source in flight at once. -/
def runsSerialized : Prop :=
  ∀ tr : List SchedEvent, (schedRun tr).inFlight ≤ 1

/-! ## The per-event sync machine (`syncEvent`/`performSyncEvent`,
GoogleCalendarSync.ts:264-597)

JavaScript's event loop runs each region between `await` points atomically.
`syncEvent` is therefore embedded as a small-step machine: each program counter
value below names one suspension point of the source, and one step executes
the remote-call completion plus the following synchronous region up to the
next suspension point.  Two calls sharing the `GoogleCalendarSync` instance
interleave under an arbitrary scheduler.

The remote calendar is modelled as the list of records (id × summary) that the
probe window of the event contains; `events.list` is read-only and logged in
`listCalls`, `events.insert` appends a record with a fresh id, `events.update`
and `events.delete` are logged in `updates`/`deletes`.  Remote calls succeed
(the claims settled on this machine are about duplicate suppression and
mapping use, not failure handling). -/

/-- `const eventKey = filePath || event.id || null` (GoogleCalendarSync.ts:287). -/
def eventKeyOf (filePath eid : Option String) : Option String :=
  match truthy filePath with
  | some p => some p
  | none => truthy eid

/-- The mapping migration block of `syncEvent` (GoogleCalendarSync.ts:301-315):
when both `filePath` and `event.id` are truthy and differ, and a mapping
exists under `event.id` but not under `filePath`, the id is copied to
`filePath`. -/
def migrate (filePath eid : Option String) (m : List (String × Nat)) :
    List (String × Nat) :=
  match truthy filePath, truthy eid with
  | some p, some e =>
    if e ≠ p then
      match lookupM m e, lookupM m p with
      | some g, none => insertM m p g
      | _, _ => m
    else m
  | _, _ => m

/-- Suspension points of one `syncEvent` call. -/
inductive PC where
  /-- before the call's first step (checks + suspension at `refreshTokenIfNeeded`,
  GoogleCalendarSync.ts:268-280). -/
  | s0
  /-- resumed from `refreshTokenIfNeeded`; runs key derivation, migration, the
  in-flight guard, and `performSyncEvent` up to its first remote call
  (GoogleCalendarSync.ts:282-334, 366-405). -/
  | s1
  /-- awaiting the unconditional insert of an untrackable event
  (GoogleCalendarSync.ts:288-299). -/
  | insUntracked
  /-- awaiting `events.update` against the mapped id (GoogleCalendarSync.ts:368-375). -/
  | updating (g : Nat)
  /-- awaiting the title/date probe `events.list` (GoogleCalendarSync.ts:397-405). -/
  | probing
  /-- awaiting `events.update` against the probe match (GoogleCalendarSync.ts:418-427). -/
  | updMatch (g : Nat)
  /-- awaiting the final pre-create `events.list` (GoogleCalendarSync.ts:462-481). -/
  | finalCheck
  /-- awaiting `events.insert` (GoogleCalendarSync.ts:492-495). -/
  | inserting
  /-- awaiting deletion of the record just created, after a mapping appeared in
  the interim (GoogleCalendarSync.ts:500-518). -/
  | delDup
  /-- awaiting the post-create duplicate `events.list` (GoogleCalendarSync.ts:539-552). -/
  | postCheck
  /-- awaiting deletion of the record just created, keeping the other matching
  record `o` (GoogleCalendarSync.ts:554-579). -/
  | delPost (o : Nat)
  /-- awaiting another in-flight `syncEvent` promise for the same key
  (GoogleCalendarSync.ts:317-326). -/
  | waiting
  /-- `performSyncEvent` resolved; the `await syncPromise` continuation and the
  `finally` that clears `syncingEvents` remain (GoogleCalendarSync.ts:336-342). -/
  | finishing
  | done
  /-- the call threw (`Not authenticated`). -/
  | threw
deriving DecidableEq, Repr

/-- One `syncEvent(event, filePath)` call. -/
structure Call where
  pc : PC
  ev : OFCEvent
  fp : Option String
  /-- `createdEventId` local of `performSyncEvent`. -/
  created : Option Nat := none
  /-- the resolved value of this call's `performSyncEvent` promise. -/
  perfRes : Option (Option Nat) := none
  /-- the value returned by `syncEvent`. -/
  ret : Option (Option Nat) := none
deriving DecidableEq, Repr

/-- State shared by all calls on one `GoogleCalendarSync` instance, plus the
effect log of the remote service. -/
structure Shared where
  auth : Bool
  mapping : List (String × Nat)
  pendingDeletions : List String
  /-- remote records (id × summary) in the probed window. -/
  remote : List (Nat × String)
  inserts : Nat
  updates : List Nat
  deletes : List Nat
  listCalls : Nat
  fresh : Nat
  /-- the `syncingEvents` map: keys with an in-flight `performSyncEvent`,
  tagged with the owning call. -/
  inflight : List (String × Fin 2)
deriving DecidableEq, Repr

def lookupIF (l : List (String × Fin 2)) (k : String) : Option (Fin 2) :=
  (l.find? (fun e => e.1 = k)).map (·.2)

def removeIF (l : List (String × Fin 2)) (k : String) : List (String × Fin 2) :=
  l.filter (fun e => ¬(e.1 = k))

def keyOf (c : Call) : Option String := eventKeyOf c.fp c.ev.id

/-- `listResponse.data.items.find(item => item.summary === event.title)`. -/
def findRemote (remote : List (Nat × String)) (title : String) : Option Nat :=
  (remote.find? (fun e => e.2 = title)).map (·.1)

/-- One step of the call `c` (owned by index `i`), with `o` the other call on
the instance and `sh` the shared state.  Unreachable pattern combinations
(e.g. a `probing` pc with no event key) stutter. -/
def callStep (i : Fin 2) (c : Call) (o : Call) (sh : Shared) : Call × Shared :=
  match c.pc with
  | .s0 =>
    if ¬ sh.auth then ({ c with pc := .threw }, sh)
    else if c.ev.type ≠ .single then ({ c with pc := .done, ret := some none }, sh)
    else ({ c with pc := .s1 }, sh)
  | .s1 =>
    match eventKeyOf c.fp c.ev.id with
    | none => ({ c with pc := .insUntracked }, sh)
    | some k =>
      let sh1 := { sh with mapping := migrate c.fp c.ev.id sh.mapping }
      match lookupIF sh1.inflight k with
      | some _ => ({ c with pc := .waiting }, sh1)
      | none =>
        let sh2 := { sh1 with inflight := sh1.inflight ++ [(k, i)] }
        match lookupM sh2.mapping k with
        | some g => ({ c with pc := .updating g }, sh2)
        | none =>
          -- the probe and the final check only run `if (timeMin)`,
          -- i.e. when the converted payload has a start (ts:397, 462)
          if (convertToGoogleEvent c.ev).start.isSome then
            ({ c with pc := .probing }, sh2)
          else ({ c with pc := .inserting }, sh2)
  | .insUntracked =>
    let nid := sh.fresh
    ({ c with pc := .done, ret := some (some nid) },
     { sh with
         remote := sh.remote ++ [(nid, (convertToGoogleEvent c.ev).summary)]
         inserts := sh.inserts + 1
         fresh := sh.fresh + 1 })
  | .updating g =>
    ({ c with pc := .finishing, perfRes := some (some g) },
     { sh with updates := sh.updates ++ [g] })
  | .probing =>
    match keyOf c with
    | none => (c, sh)
    | some k =>
      let sh1 := { sh with listCalls := sh.listCalls + 1 }
      match findRemote sh1.remote c.ev.title with
      | some m =>
        match lookupM sh1.mapping k with
        | some g => ({ c with pc := .finishing, perfRes := some (some g) }, sh1)
        | none => ({ c with pc := .updMatch m }, sh1)
      | none =>
        match lookupM sh1.mapping k with
        | some g => ({ c with pc := .finishing, perfRes := some (some g) }, sh1)
        | none => ({ c with pc := .finalCheck }, sh1)
  | .updMatch m =>
    match keyOf c with
    | none => (c, sh)
    | some k =>
      ({ c with pc := .finishing, perfRes := some (some m) },
       { sh with updates := sh.updates ++ [m], mapping := insertM sh.mapping k m })
  | .finalCheck =>
    match keyOf c with
    | none => (c, sh)
    | some k =>
      let sh1 := { sh with listCalls := sh.listCalls + 1 }
      match findRemote sh1.remote c.ev.title with
      | some m =>
        ({ c with pc := .finishing, perfRes := some (some m) },
         { sh1 with mapping := insertM sh1.mapping k m })
      | none => ({ c with pc := .inserting }, sh1)
  | .inserting =>
    match keyOf c with
    | none => (c, sh)
    | some k =>
      let nid := sh.fresh
      let sh1 :=
        { sh with
            remote := sh.remote ++ [(nid, (convertToGoogleEvent c.ev).summary)]
            inserts := sh.inserts + 1
            fresh := sh.fresh + 1 }
      let c1 := { c with created := some nid }
      match lookupM sh1.mapping k with
      | some _ => ({ c1 with pc := .delDup }, sh1)
      | none =>
        if (convertToGoogleEvent c.ev).start.isSome then
          ({ c1 with pc := .postCheck }, sh1)
        else
          -- no post-create window check possible: track the mapping, resolve
          ({ c1 with pc := .finishing, perfRes := some (some nid) },
           { sh1 with mapping := insertM sh1.mapping k nid })
  | .delDup =>
    match keyOf c, c.created with
    | some k, some cid =>
      let sh1 :=
        { sh with
            deletes := sh.deletes ++ [cid]
            remote := sh.remote.filter (fun e => ¬(e.1 = cid)) }
      ({ c with pc := .finishing, perfRes := some (lookupM sh1.mapping k) }, sh1)
    | _, _ => (c, sh)
  | .postCheck =>
    match keyOf c, c.created with
    | some k, some cid =>
      let sh1 := { sh with listCalls := sh.listCalls + 1 }
      let matching : List (Nat × String) := sh1.remote.filter (fun e => e.2 = c.ev.title)
      if 1 < matching.length then
        match matching.find? (fun e => ¬(e.1 = cid)) with
        | some oth => ({ c with pc := .delPost oth.1 }, sh1)
        | none =>
          ({ c with pc := .finishing, perfRes := some (some cid) },
           { sh1 with mapping := insertM sh1.mapping k cid })
      else
        ({ c with pc := .finishing, perfRes := some (some cid) },
         { sh1 with mapping := insertM sh1.mapping k cid })
    | _, _ => (c, sh)
  | .delPost o_ =>
    match keyOf c, c.created with
    | some k, some cid =>
      ({ c with pc := .finishing, perfRes := some (some o_) },
       { sh with
           deletes := sh.deletes ++ [cid]
           remote := sh.remote.filter (fun e => ¬(e.1 = cid))
           mapping := insertM sh.mapping k o_ })
    | _, _ => (c, sh)
  | .waiting =>
    match keyOf c with
    | none => (c, sh)
    | some k =>
      match o.perfRes with
      | none => (c, sh)     -- the awaited promise has not resolved yet
      | some r =>
        match lookupM sh.mapping k with
        | some g => ({ c with pc := .done, ret := some (some g) }, sh)
        | none => ({ c with pc := .done, ret := some r }, sh)
  | .finishing =>
    match keyOf c with
    | none => (c, sh)
    | some k =>
      ({ c with pc := .done, ret := c.perfRes },
       { sh with inflight := removeIF sh.inflight k })
  | .done => (c, sh)
  | .threw => (c, sh)

/-- Two `syncEvent` calls on one instance plus the shared state. -/
structure Config where
  a : Call
  b : Call
  sh : Shared
deriving DecidableEq, Repr

/-- The scheduler lets call `0` or call `1` take its next step. -/
def step (cfg : Config) (i : Fin 2) : Config :=
  if i = 0 then
    { cfg with
        a := (callStep 0 cfg.a cfg.b cfg.sh).1
        sh := (callStep 0 cfg.a cfg.b cfg.sh).2 }
  else
    { cfg with
        b := (callStep 1 cfg.b cfg.a cfg.sh).1
        sh := (callStep 1 cfg.b cfg.a cfg.sh).2 }

def run (cfg : Config) : List (Fin 2) → Config
  | [] => cfg
  | i :: rest => run (step cfg i) rest

/-- A shared state with authentication, no in-flight syncs, and otherwise
arbitrary contents. -/
def mkSh (M : List (String × Nat)) (P : List String) (R : List (Nat × String))
    (ins : Nat) (upd dl : List Nat) (lc fr : Nat) : Shared :=
  { auth := true, mapping := M, pendingDeletions := P, remote := R
    inserts := ins, updates := upd, deletes := dl, listCalls := lc, fresh := fr
    inflight := [] }

/-! ### The duplicate-creation race scenario (claim C1)

Two `syncEvent` calls for the same event (key `"p"`, title `"t"`) on one
authenticated instance whose mapping has no entry for the key and whose remote
window holds no matching record.  The reachable configuration set under every
interleaving is computed by breadth-first search and proved closed under
`step`. -/

def ev1 : OFCEvent :=
  { title := "t", type := .single, allDay := true, date := ⟨2025, 11, 10⟩ }

def call0 : Call := { pc := .s0, ev := ev1, fp := some "p" }

def c1Init : Config :=
  { a := call0, b := call0, sh := mkSh [] [] [] 0 [] [] 0 0 }

/-- Fuelled breadth-first search of the configurations reachable from the
frontier under `step`. -/
def bfsAux : Nat → List Config → List Config → List Config
  | 0, _, acc => acc
  | _ + 1, [], acc => acc
  | fuel + 1, c :: frontier, acc =>
    let s0 := step c 0
    let s1 := step c 1
    let p1 : List Config × List Config :=
      if acc.contains s0 then (acc, frontier) else (acc ++ [s0], frontier ++ [s0])
    let p2 : List Config × List Config :=
      if p1.1.contains s1 then (p1.1, p1.2) else (p1.1 ++ [s1], p1.2 ++ [s1])
    bfsAux fuel p2.2 p2.1

/-- The 50 configurations reachable from `c1Init`. -/
def c1Reach : List Config := bfsAux 400 [c1Init] [c1Init]

/-! ## Helper lemmas about the mapping table -/

theorem lookupM_cons (e : String × Nat) (m : List (String × Nat)) (k : String) :
    lookupM (e :: m) k = if e.1 = k then some e.2 else lookupM m k := by
  by_cases he : e.1 = k
  · simp [lookupM, List.find?_cons_of_pos, he]
  · simp [lookupM, List.find?_cons_of_neg, he]

theorem lookupM_map_replace (m : List (String × Nat)) (k : String) (v : Nat) :
    lookupM (m.map (fun e => if e.1 = k then (k, v) else e)) k =
      (lookupM m k).map (fun _ => v) := by
  induction m with
  | nil => simp [lookupM]
  | cons e rest ih =>
    by_cases he : e.1 = k
    · simp [he, lookupM_cons]
    · simp [he, lookupM_cons, ih]

theorem lookupM_append_self (m : List (String × Nat)) (k : String) (v : Nat)
    (h : lookupM m k = none) :
    lookupM (m ++ [(k, v)]) k = some v := by
  induction m with
  | nil => simp [lookupM_cons]
  | cons e rest ih =>
    rw [lookupM_cons] at h
    by_cases he : e.1 = k
    · rw [if_pos he] at h; exact absurd h (by simp)
    · rw [if_neg he] at h
      simpa [lookupM_cons, he] using ih h

theorem lookupM_isSome_of_find? (m : List (String × Nat)) (k : String) :
    ((m.find? (fun e => e.1 = k)).isSome : Bool) = (lookupM m k).isSome := by
  simp [lookupM]

theorem lookupM_insertM_self (m : List (String × Nat)) (k : String) (v : Nat) :
    lookupM (insertM m k v) k = some v := by
  unfold insertM
  by_cases hf : ((m.find? (fun e => e.1 = k)).isSome : Bool)
  · rw [if_pos hf, lookupM_map_replace]
    rw [lookupM_isSome_of_find?] at hf
    cases hl : lookupM m k with
    | none => rw [hl] at hf; simp at hf
    | some g => simp
  · rw [if_neg hf]
    rw [lookupM_isSome_of_find?] at hf
    apply lookupM_append_self
    cases hl : lookupM m k with
    | none => rfl
    | some g => rw [hl] at hf; simp at hf

theorem lookupM_map_replace_ne (m : List (String × Nat)) (k : String) (v : Nat)
    (k2 : String) (h : k2 ≠ k) :
    lookupM (m.map (fun e => if e.1 = k then (k, v) else e)) k2 = lookupM m k2 := by
  have hkk : ¬ (k = k2) := fun hh => h hh.symm
  induction m with
  | nil => rfl
  | cons e rest ih =>
    by_cases he : e.1 = k
    · have he4 : ¬ (e.1 = k2) := by rw [he]; exact hkk
      simp [he, lookupM_cons, hkk, he4, ih]
    · by_cases he3 : e.1 = k2
      · simp [he, lookupM_cons, he3, hkk, h]
      · simp [he, lookupM_cons, he3, ih]

theorem lookupM_append_ne (m : List (String × Nat)) (k : String) (v : Nat)
    (k2 : String) (h : k2 ≠ k) :
    lookupM (m ++ [(k, v)]) k2 = lookupM m k2 := by
  have hkk : ¬ (k = k2) := fun hh => h hh.symm
  induction m with
  | nil => simp [lookupM_cons, hkk]
  | cons e rest ih => simp [lookupM_cons, ih]

theorem lookupM_insertM_ne (m : List (String × Nat)) (k k2 : String) (v : Nat)
    (h : k2 ≠ k) :
    lookupM (insertM m k v) k2 = lookupM m k2 := by
  unfold insertM
  by_cases hf : ((m.find? (fun e => e.1 = k)).isSome : Bool)
  · rw [if_pos hf]; exact lookupM_map_replace_ne m k v k2 h
  · rw [if_neg hf]; exact lookupM_append_ne m k v k2 h

/-- The migration block of `syncEvent` does not change the mapping when the
derived event key already has an entry. -/
theorem migrate_eq_self (fp eid : Option String) (m : List (String × Nat))
    (k : String) (X : Nat)
    (hk : eventKeyOf fp eid = some k) (hX : lookupM m k = some X) :
    migrate fp eid m = m := by
  unfold eventKeyOf at hk
  unfold migrate
  cases hfp : truthy fp with
  | none => simp
  | some p =>
    rw [hfp] at hk
    simp only [] at hk
    injection hk with hpk
    subst hpk
    cases heid : truthy eid with
    | none => simp
    | some e =>
      by_cases he : e = p
      · simp [he]
      · simp only [he, ne_eq, not_false_iff, if_true]
        cases hle : lookupM m e <;> simp [hle, hX]

/-- The migration block of `syncEvent` copies the mapping of `event.id` to
`filePath` when only the former is mapped. -/
theorem migrate_copies (fp eid : Option String) (m : List (String × Nat))
    (p e : String) (g : Nat)
    (hfp : truthy fp = some p) (heid : truthy eid = some e) (hne : e ≠ p)
    (hg : lookupM m e = some g) (hp : lookupM m p = none) :
    migrate fp eid m = insertM m p g := by
  unfold migrate
  rw [hfp, heid]
  simp [hne, hg, hp]

theorem eventKeyOf_fp (fp eid : Option String) (p : String)
    (hfp : truthy fp = some p) :
    eventKeyOf fp eid = some p := by
  unfold eventKeyOf
  rw [hfp]

/-! ## Helper lemmas about orphan deletion -/

theorem processOrphans_calls (env : Nat → DelOutcome) (m : List (String × Nat))
    (os : List (String × Nat)) :
    (processOrphans env m os).2.2 = os.map (·.2) := by
  induction os generalizing m with
  | nil => rfl
  | cons e rest ih =>
    obtain ⟨k, g⟩ := e
    by_cases hg : isGone (env g) <;> simp [processOrphans, hg, ih]

theorem processOrphans_count (env : Nat → DelOutcome) (m : List (String × Nat))
    (os : List (String × Nat)) :
    (processOrphans env m os).2.1 =
      (os.filter (fun e => isGone (env e.2))).length := by
  induction os generalizing m with
  | nil => rfl
  | cons e rest ih =>
    obtain ⟨k, g⟩ := e
    by_cases hg : isGone (env g) <;> simp [processOrphans, hg, ih]

theorem processOrphans_mapping (env : Nat → DelOutcome) (m : List (String × Nat))
    (os : List (String × Nat)) :
    (processOrphans env m os).1 =
      os.foldl (fun acc e => if isGone (env e.2) then removeM acc e.1 else acc) m := by
  induction os generalizing m with
  | nil => rfl
  | cons e rest ih =>
    obtain ⟨k, g⟩ := e
    by_cases hg : isGone (env g) <;> simp [processOrphans, hg, ih]

theorem foldl_removeM_eq_filter (env : Nat → DelOutcome) (os m : List (String × Nat)) :
    os.foldl (fun acc e => if isGone (env e.2) then removeM acc e.1 else acc) m =
      m.filter
        (fun x => ¬ ((os.filter (fun e => isGone (env e.2))).map (·.1)).contains x.1) := by
  induction os generalizing m with
  | nil => simp
  | cons e rest ih =>
    by_cases hg : isGone (env e.2)
    · simp only [List.foldl_cons, if_pos hg, ih, List.filter_cons, hg, List.map_cons,
        decide_True, if_true]
      rw [removeM]
      rw [List.filter_filter]
      apply List.filter_congr
      intro x _
      simp only [List.contains_cons]
      by_cases hx : x.1 = e.1 <;> simp [hx, Bool.and_comm]
    · simp [List.foldl_cons, if_neg hg, ih, List.filter_cons, hg]

theorem contains_eq_decide_mem (l : List String) (a : String) :
    l.contains a = decide (a ∈ l) := by
  by_cases h : a ∈ l <;> simp [h, List.elem_iff]

/-- Characterization of `deleteOrphanedEvents` when every orphan's delete call
succeeds or returns 410. -/
theorem deleteOrphaned_all_gone (env : Nat → DelOutcome) (m : List (String × Nat))
    (keys : List String)
    (hall : ∀ e ∈ orphansOf m keys, isGone (env e.2) = true) :
    (deleteOrphanedEvents env m keys).1 = m.filter (fun e => keys.contains e.1) ∧
    (deleteOrphanedEvents env m keys).2.1 = (orphansOf m keys).length ∧
    (deleteOrphanedEvents env m keys).2.2 = (orphansOf m keys).map (·.2) := by
  unfold deleteOrphanedEvents
  have hfe : (orphansOf m keys).filter (fun e => isGone (env e.2)) = orphansOf m keys :=
    List.filter_eq_self.mpr (by intro a ha; simp [hall a ha])
  refine ⟨?_, ?_, ?_⟩
  · rw [processOrphans_mapping, foldl_removeM_eq_filter, hfe]
    apply List.filter_congr
    intro x hx
    by_cases hc : x.1 ∈ keys
    · have hno : ¬ (x.1 ∈ (orphansOf m keys).map (·.1)) := by
        simp only [List.mem_map]
        rintro ⟨y, hy, hyx⟩
        have := (List.mem_filter.mp hy).2
        rw [hyx, contains_eq_decide_mem] at this
        simp [hc] at this
      simp [contains_eq_decide_mem, hc, hno]
    · have hyes : x.1 ∈ (orphansOf m keys).map (·.1) := by
        simp only [List.mem_map]
        exact ⟨x, List.mem_filter.mpr ⟨hx, by simp [contains_eq_decide_mem, hc]⟩, rfl⟩
      simp [contains_eq_decide_mem, hc, hyes]
  · rw [processOrphans_count, hfe]
  · rw [processOrphans_calls]

/-- Full characterization of `deleteOrphanedEvents` for arbitrary per-id delete
outcomes: an orphan entry is removed and counted exactly when its delete call
succeeded or returned 410; entries with any other failure are kept; one delete
call is issued per orphan. -/
theorem deleteOrphaned_characterization (env : Nat → DelOutcome)
    (m : List (String × Nat)) (keys : List String)
    (hnd : (m.map (·.1)).Nodup) :
    (deleteOrphanedEvents env m keys).1 =
      m.filter (fun e => keys.contains e.1 || ! isGone (env e.2)) ∧
    (deleteOrphanedEvents env m keys).2.1 =
      ((orphansOf m keys).filter (fun e => isGone (env e.2))).length ∧
    (deleteOrphanedEvents env m keys).2.2 = (orphansOf m keys).map (·.2) := by
  unfold deleteOrphanedEvents
  refine ⟨?_, processOrphans_count env m _, processOrphans_calls env m _⟩
  rw [processOrphans_mapping, foldl_removeM_eq_filter]
  apply List.filter_congr
  intro x hx
  have hinj := List.inj_on_of_nodup_map hnd
  have hmem : x.1 ∈ ((orphansOf m keys).filter (fun e => isGone (env e.2))).map (·.1) ↔
      (¬ x.1 ∈ keys) ∧ isGone (env x.2) = true := by
    simp only [List.mem_map, List.mem_filter]
    constructor
    · rintro ⟨y, ⟨hyo, hyg⟩, hyx⟩
      have hym : y ∈ m := (List.mem_filter.mp hyo).1
      have hyk := (List.mem_filter.mp hyo).2
      have hxy : y = x := hinj hym hx hyx
      subst hxy
      rw [contains_eq_decide_mem] at hyk
      exact ⟨by simpa using hyk, hyg⟩
    · rintro ⟨ho, hg⟩
      exact ⟨x, ⟨List.mem_filter.mpr ⟨hx, by simp [contains_eq_decide_mem, ho]⟩, hg⟩, rfl⟩
  by_cases hc : x.1 ∈ keys
  · have hno : ¬ x.1 ∈ ((orphansOf m keys).filter (fun e => isGone (env e.2))).map (·.1) :=
      fun hin => (hmem.mp hin).1 hc
    simp [contains_eq_decide_mem, hc, hno]
  · by_cases hg : isGone (env x.2)
    · have hyes : x.1 ∈ ((orphansOf m keys).filter (fun e => isGone (env e.2))).map (·.1) :=
        hmem.mpr ⟨hc, hg⟩
      simp [contains_eq_decide_mem, hc, hg, hyes]
    · have hno : ¬ x.1 ∈ ((orphansOf m keys).filter (fun e => isGone (env e.2))).map (·.1) :=
        fun hin => hg (hmem.mp hin).2
      simp [contains_eq_decide_mem, hc, hg, hno]

/-! ## Reachability of the race scenario -/

set_option maxRecDepth 100000 in
theorem c1_init_mem : c1Init ∈ c1Reach := by decide

set_option maxRecDepth 1000000 in
theorem c1_reach_closed : ∀ cfg ∈ c1Reach, ∀ i : Fin 2, step cfg i ∈ c1Reach := by
  decide

theorem c1_run_mem (sched : List (Fin 2)) (cfg : Config) (h : cfg ∈ c1Reach) :
    run cfg sched ∈ c1Reach := by
  induction sched generalizing cfg with
  | nil => exact h
  | cons i rest ih => exact ih (step cfg i) (c1_reach_closed cfg h i)

set_option maxRecDepth 1000000 in
theorem c1_final : ∀ cfg ∈ c1Reach, cfg.a.pc = .done → cfg.b.pc = .done →
    cfg.sh.inserts = 1 ∧ cfg.sh.remote = [(0, "t")] ∧
    cfg.a.ret = cfg.b.ret ∧ cfg.a.ret = some (some 0) := by
  decide

/-! ## The claims -/

/-- Claim C1: for an event key with no entry in the mapping table, two
`syncEvent` calls for that key running concurrently within one process (under
every interleaving of the event loop) perform exactly one remote insert —
exactly one remote record exists afterwards — and both calls return the same
remote record id. -/
theorem syncEvent_concurrent_duplicate_suppression (sched : List (Fin 2))
    (hA : (run c1Init sched).a.pc = .done) (hB : (run c1Init sched).b.pc = .done) :
    (run c1Init sched).sh.inserts = 1 ∧
    (run c1Init sched).sh.remote = [(0, "t")] ∧
    (run c1Init sched).a.ret = (run c1Init sched).b.ret ∧
    (run c1Init sched).a.ret = some (some 0) :=
  c1_final (run c1Init sched) (c1_run_mem sched c1Init c1_init_mem) hA hB

set_option maxRecDepth 1000000 in
/-- Witness for C1 at the schedule that runs call 0 to completion first. -/
theorem syncEvent_concurrent_duplicate_suppression_witness :
    (run c1Init [0, 0, 0, 0, 0, 0, 0, 1, 1, 1, 1]).sh.inserts = 1 ∧
    (run c1Init [0, 0, 0, 0, 0, 0, 0, 1, 1, 1, 1]).sh.remote = [(0, "t")] ∧
    (run c1Init [0, 0, 0, 0, 0, 0, 0, 1, 1, 1, 1]).a.ret =
      (run c1Init [0, 0, 0, 0, 0, 0, 0, 1, 1, 1, 1]).b.ret ∧
    (run c1Init [0, 0, 0, 0, 0, 0, 0, 1, 1, 1, 1]).a.ret = some (some 0) :=
  syncEvent_concurrent_duplicate_suppression [0, 0, 0, 0, 0, 0, 0, 1, 1, 1, 1]
    (by decide) (by decide)

/-- Claim C2: on any authenticated state whose mapping table holds id `X` for
the event's key, a `syncEvent` call issues an update against `X` and returns
`X`; running it twice in succession returns `X` both times, issues two updates
against `X`, performs no insert, and leaves the mapping unchanged. -/
theorem syncEvent_mapped_key_updates (ev : OFCEvent) (fp : Option String)
    (k : String) (X : Nat)
    (M : List (String × Nat)) (P : List String) (R : List (Nat × String))
    (ins : Nat) (upd dl : List Nat) (lc fr : Nat)
    (hsingle : ev.type = .single)
    (hk : eventKeyOf fp ev.id = some k)
    (hX : lookupM M k = some X) :
    let cfg := run { a := { pc := .s0, ev := ev, fp := fp },
                     b := { pc := .s0, ev := ev, fp := fp },
                     sh := mkSh M P R ins upd dl lc fr } [0, 0, 0, 0, 1, 1, 1, 1]
    cfg.a.ret = some (some X) ∧ cfg.b.ret = some (some X) ∧
    cfg.sh.inserts = ins ∧ cfg.sh.updates = upd ++ [X, X] ∧ cfg.sh.mapping = M := by
  intro cfg
  have hmig := migrate_eq_self fp ev.id M k X hk hX
  show _ ∧ _ ∧ _ ∧ _ ∧ _
  simp [cfg, run, step, callStep, mkSh, hsingle, hk, hmig, hX, lookupIF, removeIF, keyOf]

/-- Witness for C2: key `"k"` mapped to id `7`. -/
theorem syncEvent_mapped_key_updates_witness :
    let cfg := run { a := { pc := .s0,
                            ev := { title := "e", type := .single, allDay := true,
                                    date := ⟨2025, 1, 1⟩ },
                            fp := some "k" },
                     b := { pc := .s0,
                            ev := { title := "e", type := .single, allDay := true,
                                    date := ⟨2025, 1, 1⟩ },
                            fp := some "k" },
                     sh := mkSh [("k", 7)] [] [] 0 [] [] 0 0 } [0, 0, 0, 0, 1, 1, 1, 1]
    cfg.a.ret = some (some 7) ∧ cfg.b.ret = some (some 7) ∧
    cfg.sh.inserts = 0 ∧ cfg.sh.updates = [] ++ [7, 7] ∧ cfg.sh.mapping = [("k", 7)] :=
  syncEvent_mapped_key_updates
    { title := "e", type := .single, allDay := true, date := ⟨2025, 1, 1⟩ }
    (some "k") "k" 7 [("k", 7)] [] [] 0 [] [] 0 0 rfl (by decide) (by decide)

/-- Claim C8: when the event carries a truthy `filePath` `p` and a differing
truthy `event.id` `e`, and the mapping holds id `g` under `e` but nothing
under `p`, `syncEvent` copies the mapping to `p` before syncing: afterwards a
lookup by `p` yields the id `g` previously found under `e`, the call returned
`g`, and the sync was an update, not an insert. -/
theorem syncEvent_mapping_migration (ev : OFCEvent) (fp : Option String)
    (p e : String) (g : Nat)
    (M : List (String × Nat)) (P : List String) (R : List (Nat × String))
    (ins : Nat) (upd dl : List Nat) (lc fr : Nat)
    (hsingle : ev.type = .single)
    (hfp : truthy fp = some p) (heid : truthy ev.id = some e) (hne : e ≠ p)
    (hg : lookupM M e = some g) (hp : lookupM M p = none) :
    let cfg := run { a := { pc := .s0, ev := ev, fp := fp },
                     b := { pc := .s0, ev := ev, fp := fp },
                     sh := mkSh M P R ins upd dl lc fr } [0, 0, 0, 0]
    cfg.a.ret = some (some g) ∧
    lookupM cfg.sh.mapping p = some g ∧
    lookupM cfg.sh.mapping e = some g ∧
    cfg.sh.inserts = ins ∧ cfg.sh.updates = upd ++ [g] := by
  intro cfg
  have hkey := eventKeyOf_fp fp ev.id p hfp
  have hmig := migrate_copies fp ev.id M p e g hfp heid hne hg hp
  have hlp := lookupM_insertM_self M p g
  have hle : lookupM (insertM M p g) e = some g := by
    rw [lookupM_insertM_ne M p e g hne, hg]
  show _ ∧ _ ∧ _ ∧ _ ∧ _
  simp [cfg, run, step, callStep, mkSh, hsingle, hkey, hmig, hlp, hle,
    lookupIF, removeIF, keyOf]

/-- Witness for C8: mapping under id `"x"` only, event now carrying path `"p2"`. -/
theorem syncEvent_mapping_migration_witness :
    let cfg := run { a := { pc := .s0,
                            ev := { title := "e", type := .single, allDay := true,
                                    date := ⟨2025, 1, 1⟩, id := some "x" },
                            fp := some "p2" },
                     b := { pc := .s0,
                            ev := { title := "e", type := .single, allDay := true,
                                    date := ⟨2025, 1, 1⟩, id := some "x" },
                            fp := some "p2" },
                     sh := mkSh [("x", 9)] [] [] 0 [] [] 0 0 } [0, 0, 0, 0]
    cfg.a.ret = some (some 9) ∧
    lookupM cfg.sh.mapping "p2" = some 9 ∧
    lookupM cfg.sh.mapping "x" = some 9 ∧
    cfg.sh.inserts = 0 ∧ cfg.sh.updates = [] ++ [9] :=
  syncEvent_mapping_migration
    { title := "e", type := .single, allDay := true, date := ⟨2025, 1, 1⟩, id := some "x" }
    (some "p2") "p2" "x" 9 [("x", 9)] [] [] 0 [] [] 0 0
    rfl (by decide) (by decide) (by decide) (by decide) (by decide)

/-- Claim C9: an authenticated `syncEvent` call for a single event with
neither a truthy `filePath` nor a truthy `event.id` performs exactly one
remote insert and returns the new id, issues no probe (`events.list`) and no
update, and leaves the mapping table and the pending-deletion set unchanged. -/
theorem syncEvent_untrackable_insert_frame (ev : OFCEvent) (fp : Option String)
    (M : List (String × Nat)) (P : List String) (R : List (Nat × String))
    (ins : Nat) (upd dl : List Nat) (lc fr : Nat)
    (hsingle : ev.type = .single)
    (hfp : truthy fp = none) (heid : truthy ev.id = none) :
    let cfg := run { a := { pc := .s0, ev := ev, fp := fp },
                     b := { pc := .s0, ev := ev, fp := fp },
                     sh := mkSh M P R ins upd dl lc fr } [0, 0, 0]
    cfg.a.ret = some (some fr) ∧
    cfg.sh.inserts = ins + 1 ∧
    cfg.sh.mapping = M ∧
    cfg.sh.pendingDeletions = P ∧
    cfg.sh.listCalls = lc ∧
    cfg.sh.updates = upd := by
  intro cfg
  have hkey : eventKeyOf fp ev.id = none := by
    unfold eventKeyOf; rw [hfp, heid]
  show _ ∧ _ ∧ _ ∧ _ ∧ _ ∧ _
  simp [cfg, run, step, callStep, mkSh, hsingle, hkey, keyOf]

/-- Witness for C9: no path, no id, a non-empty mapping left untouched. -/
theorem syncEvent_untrackable_insert_frame_witness :
    let cfg := run { a := { pc := .s0,
                            ev := { title := "u", type := .single, allDay := true,
                                    date := ⟨2025, 1, 1⟩ },
                            fp := none },
                     b := { pc := .s0,
                            ev := { title := "u", type := .single, allDay := true,
                                    date := ⟨2025, 1, 1⟩ },
                            fp := none },
                     sh := mkSh [("q", 3)] ["pd"] [] 2 [] [] 5 11 } [0, 0, 0]
    cfg.a.ret = some (some 11) ∧
    cfg.sh.inserts = 2 + 1 ∧
    cfg.sh.mapping = [("q", 3)] ∧
    cfg.sh.pendingDeletions = ["pd"] ∧
    cfg.sh.listCalls = 5 ∧
    cfg.sh.updates = [] :=
  syncEvent_untrackable_insert_frame
    { title := "u", type := .single, allDay := true, date := ⟨2025, 1, 1⟩ }
    none [("q", 3)] ["pd"] [] 2 [] [] 5 11 rfl (by decide) (by decide)

/-- Counterexample to claim C3 as stated: during orphan deletion a delete call
that fails with a 404 ("already gone" class) response is NOT treated like a
success — the entry stays in the mapping table and is not counted as deleted
(only 410 is handled, GoogleCalendarSync.ts:966-977). -/
theorem deleteOrphaned_404_kept :
    (deleteOrphanedEvents (fun _ => .httpErr 404) [("B", 2)] []).1 = [("B", 2)] ∧
    (deleteOrphanedEvents (fun _ => .httpErr 404) [("B", 2)] []).2.1 = 0 ∧
    (deleteOrphanedEvents (fun _ => .httpErr 404) [("B", 2)] []).2.2 = [2] := by
  decide

/-- Claim C3 as amended: during orphan deletion, an entry whose delete call
fails with a 410 response is treated exactly like a success — removed from the
mapping and counted as deleted — while a 404 (or any other failing code)
leaves the entry in the mapping for retry and is not counted; every orphan
gets exactly one delete call. -/
theorem deleteOrphaned_gone_only_410 (env : Nat → DelOutcome)
    (m : List (String × Nat)) (keys : List String)
    (hnd : (m.map (·.1)).Nodup) :
    (deleteOrphanedEvents env m keys).1 =
      m.filter (fun e => keys.contains e.1 || ! isGone (env e.2)) ∧
    (deleteOrphanedEvents env m keys).2.1 =
      ((orphansOf m keys).filter (fun e => isGone (env e.2))).length ∧
    (deleteOrphanedEvents env m keys).2.2 = (orphansOf m keys).map (·.2) :=
  deleteOrphaned_characterization env m keys hnd

/-- Witness for the amended C3: orphans `B` (delete fulfilled), `C` (410: removed
and counted like a success), `D` (404: kept, not counted); `A` is still local. -/
theorem deleteOrphaned_gone_only_410_witness :
    (deleteOrphanedEvents
        (fun g => if g = 2 then .ok else if g = 3 then .httpErr 410 else .httpErr 404)
        [("A", 1), ("B", 2), ("C", 3), ("D", 4)] ["A"]).1 =
      ([("A", 1), ("B", 2), ("C", 3), ("D", 4)].filter
        (fun e => ["A"].contains e.1 ||
          ! isGone ((fun g => if g = 2 then DelOutcome.ok
                     else if g = 3 then DelOutcome.httpErr 410
                     else DelOutcome.httpErr 404) e.2))) ∧
    (deleteOrphanedEvents
        (fun g => if g = 2 then .ok else if g = 3 then .httpErr 410 else .httpErr 404)
        [("A", 1), ("B", 2), ("C", 3), ("D", 4)] ["A"]).2.1 =
      ((orphansOf [("A", 1), ("B", 2), ("C", 3), ("D", 4)] ["A"]).filter
        (fun e => isGone ((fun g => if g = 2 then DelOutcome.ok
                     else if g = 3 then DelOutcome.httpErr 410
                     else DelOutcome.httpErr 404) e.2))).length ∧
    (deleteOrphanedEvents
        (fun g => if g = 2 then .ok else if g = 3 then .httpErr 410 else .httpErr 404)
        [("A", 1), ("B", 2), ("C", 3), ("D", 4)] ["A"]).2.2 =
      (orphansOf [("A", 1), ("B", 2), ("C", 3), ("D", 4)] ["A"]).map (·.2) :=
  deleteOrphaned_gone_only_410
    (fun g => if g = 2 then .ok else if g = 3 then .httpErr 410 else .httpErr 404)
    [("A", 1), ("B", 2), ("C", 3), ("D", 4)] ["A"] (by decide)

/-- Claim C4: when every orphan's delete call completes (fulfilled or 410),
`deleteOrphanedEvents` leaves the mapping table with exactly the entries whose
key is among the current local keys — in particular no entry with a key absent
from the local set remains — and issues exactly one delete call per orphan,
carrying its former remote id. -/
theorem deleteOrphaned_mapping_invariant (env : Nat → DelOutcome)
    (m : List (String × Nat)) (keys : List String)
    (hall : ∀ e ∈ orphansOf m keys, isGone (env e.2) = true) :
    (deleteOrphanedEvents env m keys).1 = m.filter (fun e => keys.contains e.1) ∧
    (∀ e ∈ (deleteOrphanedEvents env m keys).1, e.1 ∈ keys) ∧
    (deleteOrphanedEvents env m keys).2.2 = (orphansOf m keys).map (·.2) := by
  obtain ⟨h1, _h2, h3⟩ := deleteOrphaned_all_gone env m keys hall
  refine ⟨h1, ?_, h3⟩
  intro e he
  rw [h1] at he
  have := (List.mem_filter.mp he).2
  rw [contains_eq_decide_mem] at this
  simpa using this

/-- Witness for C4: mapping `{A, B, C}`, local keys `{A, C}`; the mapping ends
as `{A, C}` and exactly one delete call is issued, for B's former id `2`. -/
theorem deleteOrphaned_mapping_invariant_witness :
    ((deleteOrphanedEvents (fun _ => .ok) [("A", 1), ("B", 2), ("C", 3)] ["A", "C"]).1 =
        [("A", 1), ("C", 3)] ∧
      (deleteOrphanedEvents (fun _ => .ok) [("A", 1), ("B", 2), ("C", 3)] ["A", "C"]).2.2 =
        [2]) ∧
    ((deleteOrphanedEvents (fun _ => .ok) [("A", 1), ("B", 2), ("C", 3)] ["A", "C"]).1 =
        [("A", 1), ("B", 2), ("C", 3)].filter (fun e => ["A", "C"].contains e.1) ∧
      (∀ e ∈ (deleteOrphanedEvents (fun _ => .ok)
          [("A", 1), ("B", 2), ("C", 3)] ["A", "C"]).1, e.1 ∈ ["A", "C"]) ∧
      (deleteOrphanedEvents (fun _ => .ok) [("A", 1), ("B", 2), ("C", 3)] ["A", "C"]).2.2 =
        (orphansOf [("A", 1), ("B", 2), ("C", 3)] ["A", "C"]).map (·.2)) :=
  ⟨by decide,
   deleteOrphaned_mapping_invariant (fun _ => .ok)
     [("A", 1), ("B", 2), ("C", 3)] ["A", "C"] (by decide)⟩

/-- Counterexample to claim C5 as stated: the scheduler does start a new run
for a source while the previous run is still in flight.  `start()` fires an
immediate un-awaited `syncAll()`; a timer tick before that run completes fires
a second concurrent `syncAll()`, so two reconciliation runs for the source are
in flight at once, refuting the serialization property. -/
theorem scheduler_overlapping_runs :
    (schedRun [SchedEvent.start, SchedEvent.tick]).inFlight = 2 ∧ ¬ runsSerialized :=
  ⟨by decide, fun h => absurd (h [SchedEvent.start, SchedEvent.tick]) (by decide)⟩

/-- Claim C5 as amended: `start()` is guarded against re-entry (calling it
while running is a no-op, so two interval timers are never active), but
reconciliation runs are not serialized per source: while the timer is set a
tick starts a new run regardless of how many runs are in flight, and a manual
`syncAll()` always starts a new run — there is no per-source in-flight flag. -/
theorem scheduler_start_guard_only (s : SchedState)
    (hrun : s.isRunning = true) (htimer : s.timerSet = true) :
    schedStep s .start = s ∧
    (schedStep s .tick).inFlight = s.inFlight + 1 ∧
    (schedStep s .manualSync).inFlight = s.inFlight + 1 := by
  refine ⟨?_, ?_, rfl⟩ <;> simp [schedStep, hrun, htimer]

/-- Witness for the amended C5 at a state with one run already in flight. -/
theorem scheduler_start_guard_only_witness :
    schedStep ⟨true, true, 1⟩ .start = (⟨true, true, 1⟩ : SchedState) ∧
    (schedStep ⟨true, true, 1⟩ .tick).inFlight = 1 + 1 ∧
    (schedStep ⟨true, true, 1⟩ .manualSync).inFlight = 1 + 1 :=
  scheduler_start_guard_only ⟨true, true, 1⟩ rfl rfl

/-- Claim C6: a single timed event with a `startTime` and no `endTime`
converts to a payload whose end instant is exactly one hour (60 minutes) after
its start instant, for every valid wall-clock start time — including hour 23,
where luxon's `set({hour: 24})` rolls over into the next day. -/
theorem convert_timed_default_one_hour (ev : OFCEvent) (h mi : Nat)
    (hsingle : ev.type = .single) (hall : ev.allDay = false)
    (hst : ev.startTime = some (h, mi)) (het : ev.endTime = none)
    (hh : h < 24) (hm : mi < 60) :
    (convertToGoogleEvent ev).start = some (.dateTime (localInstant ev.date h mi)) ∧
    (convertToGoogleEvent ev).end_ =
      some (.dateTime (localInstant ev.date h mi + 60)) := by
  have hplus : localInstant ev.date (h + 1) mi = localInstant ev.date h mi + 60 := by
    unfold localInstant
    push_cast
    ring
  simp [convertToGoogleEvent, hsingle, hall, hst, het, hplus]

/-- Witness for C6 at start time 23:30 (the end rolls into the next day and is
still exactly 60 minutes later). -/
theorem convert_timed_default_one_hour_witness :
    (convertToGoogleEvent
        { title := "w", type := .single, allDay := false, date := ⟨2025, 11, 10⟩,
          startTime := some (23, 30) }).start =
      some (.dateTime (localInstant ⟨2025, 11, 10⟩ 23 30)) ∧
    (convertToGoogleEvent
        { title := "w", type := .single, allDay := false, date := ⟨2025, 11, 10⟩,
          startTime := some (23, 30) }).end_ =
      some (.dateTime (localInstant ⟨2025, 11, 10⟩ 23 30 + 60)) :=
  convert_timed_default_one_hour
    { title := "w", type := .single, allDay := false, date := ⟨2025, 11, 10⟩,
      startTime := some (23, 30) }
    23 30 rfl rfl rfl rfl (by decide) (by decide)

/-- Claim C7: a single all-day event converts to a payload with `start.date`
equal to the event's date and, when no `endDate` is set, `end.date` equal to
the date plus one day (exclusive end); when an `endDate` is present,
`end.date` equals it. -/
theorem convert_allday_exclusive_end (ev : OFCEvent)
    (hsingle : ev.type = .single) (hall : ev.allDay = true) :
    (convertToGoogleEvent ev).start = some (.date ev.date) ∧
    (ev.endDate = none →
      (convertToGoogleEvent ev).end_ = some (.date (nextDay ev.date))) ∧
    (∀ e, ev.endDate = some e → (convertToGoogleEvent ev).end_ = some (.date e)) := by
  cases hed : ev.endDate <;> simp [convertToGoogleEvent, hsingle, hall, hed]

/-- Witness for C7 at `2025-11-10`: the exclusive end is `2025-11-11`. -/
theorem convert_allday_exclusive_end_witness :
    ((convertToGoogleEvent
        { title := "a", type := .single, allDay := true,
          date := ⟨2025, 11, 10⟩ }).start = some (.date ⟨2025, 11, 10⟩) ∧
      ((none : Option DateYMD) = none →
        (convertToGoogleEvent
          { title := "a", type := .single, allDay := true,
            date := ⟨2025, 11, 10⟩ }).end_ = some (.date (nextDay ⟨2025, 11, 10⟩))) ∧
      (∀ e, (none : Option DateYMD) = some e →
        (convertToGoogleEvent
          { title := "a", type := .single, allDay := true,
            date := ⟨2025, 11, 10⟩ }).end_ = some (.date e))) ∧
    nextDay ⟨2025, 11, 10⟩ = ⟨2025, 11, 11⟩ :=
  ⟨convert_allday_exclusive_end
     { title := "a", type := .single, allDay := true, date := ⟨2025, 11, 10⟩ }
     rfl rfl,
   by decide⟩

/-- Claim C10: for a key with no mapping entry, no fuzzy match among the
mapping keys, and no pending-deletion entry, `deleteEvent` first adds the key
to the pending-deletion set and then throws — persisted state is mutated even
though the operation reports failure, so `deleteEvent` is not atomic on
error. -/
theorem deleteEvent_pending_added_then_throws (env : Nat → DelOutcome)
    (st : SyncStateM) (k : String)
    (hlook : lookupM st.eventMapping k = none)
    (hfuzzy : ∀ key ∈ st.eventMapping.map (·.1), fuzzyMatch key k = false)
    (hpend : st.pendingDeletions.contains k = false) :
    deleteEvent env true st k =
      ({ st with pendingDeletions := st.pendingDeletions ++ [k] },
       .thrown ("No Google Calendar event found for: " ++ k)) := by
  have hfind : (st.eventMapping.map (·.1)).find? (fun key => fuzzyMatch key k) = none :=
    List.find?_eq_none.mpr (by intro a ha; simp [hfuzzy a ha])
  have hnp : ¬ k ∈ st.pendingDeletions := by
    simpa [contains_eq_decide_mem] using hpend
  unfold deleteEvent
  simp only [not_true, if_false, Bool.not_eq_true, ite_false]
  rw [hlook, hfind]
  simp [hnp, addPendingDeletion, contains_eq_decide_mem]

/-- Witness for C10: empty mapping and pending set, key `"a"`. -/
theorem deleteEvent_pending_added_then_throws_witness :
    deleteEvent (fun _ => .ok) true ⟨[], []⟩ "a" =
      (⟨[], [] ++ ["a"]⟩, .thrown ("No Google Calendar event found for: " ++ "a")) :=
  deleteEvent_pending_added_then_throws (fun _ => .ok) ⟨[], []⟩ "a"
    (by decide) (by decide) (by decide)

end GCalSync
